import Mathlib

/-!
shopify-graphql-go: the collection aggregator and its sanitizer

A shallow embedding of `main.go`.  Go strings are modelled as lists of
Unicode characters, the dynamically typed `map[string]interface{}` values
produced by `encoding/json` as a small JSON datatype, and the ways a Go
function can end (a return with or without an error, a run-time panic,
`log.Fatalf`) as the constructors of `Outcome`.  The call `client.Run` of the
GraphQL client library is a parameter that passes the state of the outside
world along.
-/

namespace ShopifyGraphql

/-! ## Characters used by the sanitizer -/

/-- The line feed character, written `"\n"` in the source. -/
def newline : Char := Char.ofNat 10

/-- The space character. -/
def space : Char := Char.ofNat 32

/-- The backslash character. -/
def backslash : Char := Char.ofNat 92

/-- The double quote character. -/
def dquote : Char := Char.ofNat 34

/-- The escaped-quote sequence: a backslash followed by a double quote, the
raw string literal of line 26 of `main.go`. -/
def escQuote : List Char := [backslash, dquote]

/-! ## The pieces of Go's `strings` package that `sanitizeString` calls -/

/-- Go's `unicode.IsSpace`: the Latin-1 spaces `\t \n \v \f \r`, space,
U+0085 and U+00A0, and the other code points with the White_Space property. -/
def isSpace (c : Char) : Bool :=
  let n := c.toNat
  (9 ≤ n && n ≤ 13) || n == 32 || n == 133 || n == 160 || n == 5760 ||
  (8192 ≤ n && n ≤ 8202) || n == 8232 || n == 8233 || n == 8239 ||
  n == 8287 || n == 12288

/-- The scan of `strings.Replace` for a non-empty `old`: `skip` counts the
characters of a matched occurrence that are still to be dropped; with
`skip = 0` the scan tests for an occurrence at the current position, emits
`new` for it and resumes after it, otherwise copies one character. -/
def replaceScan (old new : List Char) : Nat → List Char → List Char
  | _, [] => []
  | k + 1, _ :: cs => replaceScan old new k cs
  | 0, c :: cs =>
    if old.isPrefixOf (c :: cs) then new ++ replaceScan old new (old.length - 1) cs
    else c :: replaceScan old new 0 cs

/-- Go's `strings.ReplaceAll(s, old, new)`: the non-overlapping occurrences
of `old`, found from left to right in one pass, are replaced by `new`.  An
empty `old` matches before every character and at the end. -/
def replaceAll (s old new : List Char) : List Char :=
  match old with
  | [] => (s.map fun c => new ++ [c]).flatten ++ new
  | _ :: _ => replaceScan old new 0 s

/-- Go's `strings.TrimSpace`: the leading and the trailing characters that
satisfy `unicode.IsSpace` are removed. -/
def trimSpace (s : List Char) : List Char :=
  ((s.dropWhile isSpace).reverse.dropWhile isSpace).reverse

/-! ## `sanitizeString` (main.go, lines 24-31) -/

/-- The body of `sanitizeString` on the characters of its argument. -/
def sanitizeChars (s : List Char) : List Char :=
  let s := replaceAll s [newline] [space]
  let s := replaceAll s escQuote []
  let s := trimSpace s
  s

/-- The function `sanitizeString` of `main.go`. -/
def sanitizeString (s : String) : String :=
  String.mk (sanitizeChars s.data)

/-! ## Dynamically typed values -/

/-- The values `encoding/json` decodes into an `interface{}`: `nil`, `bool`,
`float64`, `string`, `[]interface{}` and `map[string]interface{}`.  The maps
and slices that `collectionProducts` builds are values of the same type. -/
inductive JSON where
  | null
  | bool (b : Bool)
  | num (q : Rat)
  | str (s : String)
  | arr (xs : List JSON)
  | obj (kvs : List (String × JSON))

/-- A `map[string]interface{}`, as the list of its entries. -/
abbrev Obj := List (String × JSON)

/-- The Go index expression `m[k]`: the value stored under `k`, and `nil`
when the key is missing. -/
def getKey (m : Obj) (k : String) : JSON :=
  (m.lookup k).getD JSON.null

/-- The Go assignment `m[k] = v`: the entry of `k` is overwritten, or added
when the key is new. -/
def setKey : Obj → String → JSON → Obj
  | [], k, v => [(k, v)]
  | (k', v') :: m, k, v =>
    if k' = k then (k, v) :: m else (k', v') :: setKey m k v

/-- Whether the map has an entry for `k`. -/
def hasKey (m : Obj) (k : String) : Bool :=
  (m.lookup k).isSome

/-- The type assertion `v.(map[string]interface{})`; `none` is the run-time
panic of a failed assertion. -/
def JSON.asObj : JSON → Option Obj
  | JSON.obj m => some m
  | _ => none

/-- The type assertion `v.(string)`; `none` is the run-time panic. -/
def JSON.asStr : JSON → Option String
  | JSON.str s => some s
  | _ => none

/-- The type assertion `v.([]interface{})`; `none` is the run-time panic. -/
def JSON.asArr : JSON → Option (List JSON)
  | JSON.arr xs => some xs
  | _ => none

/-- Whether the comma-ok assertion `v.(map[string]interface{})` reports `ok`. -/
def JSON.isObj : JSON → Bool
  | JSON.obj _ => true
  | _ => false

/-- Whether the value is a string. -/
def JSON.isStr : JSON → Bool
  | JSON.str _ => true
  | _ => false

/-! ## Outcomes and the upstream client -/

/-- How a call of a Go function ends: it returns a value and a nil error,
it returns a non-nil error, it panics, or `log.Fatalf` ends the process. -/
inductive Outcome (α : Type) where
  | ok (a : α)
  | error (err : String)
  | panic
  | fatal (msg : String)

/-- The two query documents of `main.go`. -/
inductive Query where
  | getProductByHandle
  | getCollection
  deriving DecidableEq

/-- What `client.Run` sends: the endpoint, the query document, the value of
the variable `$handle` and the `X-Shopify-Access-Token` header. -/
structure Request where
  url : String
  query : Query
  handle : String
  token : String
  deriving DecidableEq

/-- The call `client.Run(ctx, req, &respData)` of the GraphQL client library:
from the request and the state of the outside world it yields an error or the
decoded response, and the next state of the world. -/
abbrev Client (σ : Type) := Request → σ → Except String Obj × σ

/-! ## `products` (lines 33-94) and `collection` (lines 96-134) -/

/-- The function `products` of `main.go`. -/
def products {σ : Type} (run : Client σ) (url token handle : String) (w : σ) :
    Outcome Obj × σ :=
  match run ⟨url, Query.getProductByHandle, handle, token⟩ w with
  | (Except.error err, w) => (Outcome.fatal ("failed to fetch product: " ++ err), w)
  | (Except.ok respData, w) =>
    match getKey respData "productByHandle" with
    | JSON.obj data =>
      match getKey data "description" with
      | JSON.str desc =>
        (Outcome.ok (setKey respData "productByHandle"
          (JSON.obj (setKey data "description" (JSON.str (sanitizeString desc))))), w)
      | _ => (Outcome.ok respData, w)
    | _ => (Outcome.panic, w)

/-- The function `collection` of `main.go`. -/
def collection {σ : Type} (run : Client σ) (url token handle : String) (w : σ) :
    Outcome Obj × σ :=
  match run ⟨url, Query.getCollection, handle, token⟩ w with
  | (Except.error err, w) => (Outcome.fatal ("failed to fetch collection: " ++ err), w)
  | (Except.ok respData, w) => (Outcome.ok respData, w)

/-! ## The flattening step of `collectionProducts` (lines 169-220) -/

/-- The map literal `{"altText": m["altText"].(string), "url": m["url"].(string)}`
of lines 181-184, 191-194 and 212-215. -/
def imageMap (m : Obj) : Option JSON := do
  let altText ← (getKey m "altText").asStr
  let url ← (getKey m "url").asStr
  pure (JSON.obj [("altText", JSON.str altText), ("url", JSON.str url)])

/-- The statement `m[k] = append(m[k].([]map[string]interface{}), x)`. -/
def appendTo (m : Obj) (k : String) (x : JSON) : Option Obj := do
  let xs ← (getKey m k).asArr
  pure (setKey m k (JSON.arr (xs ++ [x])))

/-- The loop over the image edges, lines 189-196. -/
def imagesLoop : List JSON → Obj → Option Obj
  | [], product => some product
  | edge :: imageEdges, product => do
    let imageNode ← (getKey (← edge.asObj) "node").asObj
    let image ← imageMap imageNode
    let product ← appendTo product "images" image
    imagesLoop imageEdges product

/-- The variant map of lines 203-216. -/
def variantMap (handle : String) (variantNode : Obj) : Option Obj := do
  let id ← (getKey variantNode "id").asStr
  let title ← (getKey variantNode "title").asStr
  let price ← (getKey variantNode "price").asStr
  let variant : Obj := [("handle", JSON.str handle), ("id", JSON.str id),
    ("title", JSON.str title), ("price", JSON.str price)]
  match getKey variantNode "image" with
  | JSON.obj image => do
    let im ← imageMap image
    pure (setKey variant "image" im)
  | _ => pure variant

/-- The loop over the variant edges, lines 201-220. -/
def variantsLoop (handle : String) : List JSON → Obj → Option Obj
  | [], product => some product
  | variantEdge :: variants, product => do
    let variantNode ← (getKey (← variantEdge.asObj) "node").asObj
    let variant ← variantMap handle variantNode
    let product ← appendTo product "variants" (JSON.obj variant)
    variantsLoop handle variants product

/-- Lines 180-185: the featured image, copied when the comma-ok assertion
finds an object. -/
def addFeaturedImage (productNodeDetails product : Obj) : Option Obj :=
  match getKey productNodeDetails "featuredImage" with
  | JSON.obj featuredImage => do
    let im ← imageMap featuredImage
    pure (setKey product "featuredImage" im)
  | _ => pure product

/-- Lines 187-197: the images, copied when the comma-ok assertion finds an
object under `images`. -/
def addImages (productNodeDetails product : Obj) : Option Obj :=
  match getKey productNodeDetails "images" with
  | JSON.obj images => do
    let imageEdges ← (getKey images "edges").asArr
    imagesLoop imageEdges product
  | _ => pure product

/-- Lines 199-220: the variants; both assertions of line 200 are unchecked. -/
def addVariants (handle : String) (productNodeDetails product : Obj) : Option Obj := do
  let variants ← (getKey (← (getKey productNodeDetails "variants").asObj) "edges").asArr
  variantsLoop handle variants product

/-- The map literal of lines 171-178. -/
def productMap (handle : String) (productNodeDetails : Obj) : Option Obj := do
  let id ← (getKey productNodeDetails "id").asStr
  let title ← (getKey productNodeDetails "title").asStr
  let description ← (getKey productNodeDetails "description").asStr
  pure [("handle", JSON.str handle), ("id", JSON.str id),
    ("title", JSON.str title), ("description", JSON.str description),
    ("images", JSON.arr []), ("variants", JSON.arr [])]

/-- Lines 169-220: the simplified product built from the response of
`products`; `none` is the run-time panic of a failed type assertion. -/
def simplifyProduct (handle : String) (productDetails : Obj) : Option Obj := do
  let productNodeDetails ← (getKey productDetails "productByHandle").asObj
  let product ← productMap handle productNodeDetails
  let product ← addFeaturedImage productNodeDetails product
  let product ← addImages productNodeDetails product
  addVariants handle productNodeDetails product

/-! ## `collectionProducts` (lines 136-234) -/

/-- Lines 159-160: the handle of a product edge of the collection. -/
def edgeHandle (productEdge : JSON) : Option String := do
  let productNode ← (getKey (← productEdge.asObj) "node").asObj
  (getKey productNode "handle").asStr

/-- The loop over the product edges of the collection, lines 158-224. -/
def productsLoop {σ : Type} (run : Client σ) (url token : String) :
    List JSON → Obj → σ → Outcome Obj × σ
  | [], collectionProducts, w => (Outcome.ok collectionProducts, w)
  | productEdge :: productsData, collectionProducts, w =>
    match edgeHandle productEdge with
    | none => (Outcome.panic, w)
    | some handle =>
      match products run url token handle w with
      | (Outcome.error _, w) => productsLoop run url token productsData collectionProducts w
      | (Outcome.panic, w) => (Outcome.panic, w)
      | (Outcome.fatal msg, w) => (Outcome.fatal msg, w)
      | (Outcome.ok productDetails, w) =>
        match (do let product ← simplifyProduct handle productDetails
                  appendTo collectionProducts "products" (JSON.obj product)) with
        | none => (Outcome.panic, w)
        | some collectionProducts =>
          productsLoop run url token productsData collectionProducts w

/-- Lines 143-156: the initial response structure and the product edges taken
from the collection response; `none` is the run-time panic. -/
def extractCollection (collectionResp : Obj) : Option (Obj × List JSON) := do
  let collectionHandle ← (getKey collectionResp "collectionByHandle").asObj
  let collectionID ← (getKey collectionHandle "id").asStr
  let collectionTitle ← (getKey collectionHandle "title").asStr
  let collectionProducts : Obj := [("id", JSON.str collectionID),
    ("title", JSON.str collectionTitle), ("products", JSON.arr [])]
  let productsData ← (getKey (← (getKey collectionHandle "products").asObj) "edges").asArr
  pure (collectionProducts, productsData)

/-- Lines 137-224 of `collectionProducts`: the document handed to
`json.MarshalIndent`. -/
def collectionProductsDoc {σ : Type} (run : Client σ) (url token handle : String)
    (w : σ) : Outcome Obj × σ :=
  match collection run url token handle w with
  | (Outcome.error err, w) => (Outcome.error ("error fetching collection: " ++ err), w)
  | (Outcome.panic, w) => (Outcome.panic, w)
  | (Outcome.fatal msg, w) => (Outcome.fatal msg, w)
  | (Outcome.ok collectionResp, w) =>
    match extractCollection collectionResp with
    | none => (Outcome.panic, w)
    | some (collectionProducts, productsData) =>
      productsLoop run url token productsData collectionProducts w

/-- The function `collectionProducts` of `main.go`.  `marshalIndent` is the call
`json.MarshalIndent(v, "", "  ")` of the standard library. -/
def collectionProducts {σ : Type} (marshalIndent : JSON → Except String String)
    (run : Client σ) (url token handle : String) (w : σ) : Outcome String × σ :=
  match collectionProductsDoc run url token handle w with
  | (Outcome.ok doc, w) =>
    match marshalIndent (JSON.obj doc) with
    | Except.error err => (Outcome.error ("error marshalling to JSON: " ++ err), w)
    | Except.ok data => (Outcome.ok data, w)
  | (Outcome.error err, w) => (Outcome.error err, w)
  | (Outcome.panic, w) => (Outcome.panic, w)
  | (Outcome.fatal msg, w) => (Outcome.fatal msg, w)

/-! ## Predicates used in the statements -/

/-- What holds of a variant edge of the raw product and the entry built from it:
the entry carries the id, title and price of the node and the handle of the
enclosing product, and an `image` exactly when the node has one. -/
def VariantOf (handle : String) (variantEdge entry : JSON) : Prop :=
  ∃ (e node variant : Obj) (id title price : String),
    variantEdge = JSON.obj e ∧ getKey e "node" = JSON.obj node ∧ entry = JSON.obj variant ∧
    getKey node "id" = JSON.str id ∧ getKey node "title" = JSON.str title ∧
    getKey node "price" = JSON.str price ∧
    getKey variant "handle" = JSON.str handle ∧ getKey variant "id" = JSON.str id ∧
    getKey variant "title" = JSON.str title ∧ getKey variant "price" = JSON.str price ∧
    hasKey variant "image" = (getKey node "image").isObj ∧
    ∀ image, getKey node "image" = JSON.obj image →
      imageMap image = some (getKey variant "image")

/-- The handle of an entry of the `products` list of the output document. -/
def productHandle (p : JSON) : Option String :=
  match p with
  | JSON.obj m => (getKey m "handle").asStr
  | _ => none

/-- The handles of the products of the output document, in order. -/
def productHandles (doc : Obj) : List (Option String) :=
  match getKey doc "products" with
  | JSON.arr ps => ps.map productHandle
  | _ => []

/-- Whether a value is a string or null, as a nullable string field of the
upstream schema is. -/
def JSON.isStrOrNull : JSON → Bool
  | JSON.str _ => true
  | JSON.null => true
  | _ => false

/-- An image object of the shape the product query requests: a string `url`
and an `altText` that `alt` accepts. -/
def imageShaped (alt : JSON → Bool) (v : JSON) : Bool :=
  match v with
  | JSON.obj m => (getKey m "url").isStr && alt (getKey m "altText")
  | _ => false

/-- An optional image: no object at all, or an image object of the requested
shape. -/
def optionalImageShaped (alt : JSON → Bool) (v : JSON) : Bool :=
  match v with
  | JSON.obj m => imageShaped alt (JSON.obj m)
  | _ => true

/-- An edge of the `images` connection: an object whose `node` is an image. -/
def imageEdgeShaped (alt : JSON → Bool) (edge : JSON) : Bool :=
  match edge with
  | JSON.obj e => imageShaped alt (getKey e "node")
  | _ => false

/-- An edge of the `variants` connection: an object whose `node` has a string
id, title and price and an optional image. -/
def variantEdgeShaped (alt : JSON → Bool) (edge : JSON) : Bool :=
  match edge with
  | JSON.obj e =>
    match getKey e "node" with
    | JSON.obj node =>
      (getKey node "id").isStr && (getKey node "title").isStr &&
        (getKey node "price").isStr && optionalImageShaped alt (getKey node "image")
    | _ => false
  | _ => false

/-- A connection: an object whose `edges` is a list of edges that satisfy `p`. -/
def edgesShaped (p : JSON → Bool) (v : JSON) : Bool :=
  match v with
  | JSON.obj m =>
    match getKey m "edges" with
    | JSON.arr es => es.all p
    | _ => false
  | _ => false

/-- A raw product of the shape the product query requests, with `alt` saying
which values of `altText` are admitted. -/
def productShaped (alt : JSON → Bool) (raw : Obj) : Bool :=
  (getKey raw "id").isStr && (getKey raw "title").isStr &&
    (getKey raw "description").isStr &&
    optionalImageShaped alt (getKey raw "featuredImage") &&
    edgesShaped (imageEdgeShaped alt) (getKey raw "images") &&
    edgesShaped (variantEdgeShaped alt) (getKey raw "variants")

/-- What holds of an image edge of the raw product and the entry built from it. -/
def ImageOf (imageEdge entry : JSON) : Prop :=
  ∃ (e node : Obj), imageEdge = JSON.obj e ∧ getKey e "node" = JSON.obj node ∧
    imageMap node = some entry

/-- What holds of a product edge of the collection and the entry of the
`products` list built from it: the entry is the flattened form of what
`products` returned for the handle of the edge. -/
def ProductOf {σ : Type} (run : Client σ) (url token : String)
    (productEdge entry : JSON) : Prop :=
  ∃ (handle : String) (w w' : σ) (productDetails product : Obj),
    edgeHandle productEdge = some handle ∧
    products run url token handle w = (Outcome.ok productDetails, w') ∧
    simplifyProduct handle productDetails = some product ∧ entry = JSON.obj product

/-! ## Sample upstream responses and stub clients -/

/-- A product edge of a collection response. -/
def productEdge (handle : String) : JSON :=
  JSON.obj [("node", JSON.obj [("id", JSON.str ("gid://" ++ handle)),
    ("title", JSON.str handle), ("handle", JSON.str handle)])]

/-- A response to the collection query with the given product handles. -/
def collectionResponse (handles : List String) : Obj :=
  [("collectionByHandle", JSON.obj [("id", JSON.str "gid://1"),
    ("title", JSON.str "Front Page"),
    ("products", JSON.obj [("edges", JSON.arr (handles.map productEdge))])])]

/-- The response to a collection query for an unknown handle. -/
def nullCollection : Obj := [("collectionByHandle", JSON.null)]

/-- The response to a product query for an unknown handle. -/
def nullProduct : Obj := [("productByHandle", JSON.null)]

/-- An image object as the product query requests it. -/
def imageOf (altText : JSON) : JSON :=
  JSON.obj [("url", JSON.str "https://cdn.example/mug.png"), ("altText", altText)]

/-- A variant edge without an image; the node carries a `handle` of its own. -/
def plainVariantEdge : JSON :=
  JSON.obj [("node", JSON.obj [("id", JSON.str "v1"), ("title", JSON.str "Default"),
    ("price", JSON.str "9.99"), ("handle", JSON.str "own-handle"), ("image", JSON.null)])]

/-- A variant edge whose node has an image. -/
def imageVariantEdge (altText : JSON) : JSON :=
  JSON.obj [("node", JSON.obj [("id", JSON.str "v2"), ("title", JSON.str "Large"),
    ("price", JSON.str "12.50"), ("image", imageOf altText)])]

/-- The common fields of the sample products. -/
def mugFields : Obj :=
  [("id", JSON.str "gid://p1"), ("title", JSON.str "Mug"), ("description", JSON.str " A\nmug ")]

/-- A response to the product query: no featured image, one image, two variants. -/
def mugProduct : Obj :=
  [("productByHandle", JSON.obj (mugFields ++ [("featuredImage", JSON.null),
    ("images", JSON.obj [("edges", JSON.arr [JSON.obj [("node", imageOf (JSON.str "a mug"))]])]),
    ("variants", JSON.obj [("edges",
      JSON.arr [plainVariantEdge, imageVariantEdge (JSON.str "large mug")])])]))]

/-- A response to the product query with a featured image. -/
def featuredProduct (altText : JSON) : Obj :=
  [("productByHandle", JSON.obj (mugFields ++ [("featuredImage", imageOf altText),
    ("images", JSON.obj [("edges", JSON.arr [])]),
    ("variants", JSON.obj [("edges", JSON.arr [])])]))]

/-- A response to the product query in which `images` is missing. -/
def productWithoutImages : Obj :=
  [("productByHandle", JSON.obj (mugFields ++
    [("variants", JSON.obj [("edges", JSON.arr [plainVariantEdge])])]))]

/-- A response to the product query in which `variants` is missing. -/
def productWithoutVariants : Obj :=
  [("productByHandle", JSON.obj (mugFields ++
    [("images", JSON.obj [("edges", JSON.arr [])])]))]

/-- A response to the product query whose only image has a null `altText`. -/
def productNullAltImage : Obj :=
  [("productByHandle", JSON.obj (mugFields ++ [("featuredImage", JSON.null),
    ("images", JSON.obj [("edges", JSON.arr [JSON.obj [("node", imageOf JSON.null)]])]),
    ("variants", JSON.obj [("edges", JSON.arr [])])]))]

/-- A response to the product query whose variant image has a null `altText`. -/
def productNullAltVariant : Obj :=
  [("productByHandle", JSON.obj (mugFields ++ [("featuredImage", JSON.null),
    ("images", JSON.obj [("edges", JSON.arr [])]),
    ("variants", JSON.obj [("edges", JSON.arr [imageVariantEdge JSON.null])])]))]

/-- An upstream that answers the collection query with `coll` and the product
query for a handle with `prod handle`, whatever the state of the world. -/
def stubClient (coll : Except String Obj) (prod : String → Except String Obj) :
    Client Unit :=
  fun req w =>
    match req.query with
    | Query.getCollection => (coll, w)
    | Query.getProductByHandle => (prod req.handle, w)

/-- An upstream serving the collection `[A, B, C]` in which the fetch of `B`
ends as `b` says. -/
def clientABC (b : Except String Obj) : Client Unit :=
  stubClient (Except.ok (collectionResponse ["A", "B", "C"]))
    fun handle => if handle = "B" then b else Except.ok mugProduct

/-- An upstream serving a collection with the single product `mug`. -/
def clientMug (mug : Obj) : Client Unit :=
  stubClient (Except.ok (collectionResponse ["mug"])) fun _ => Except.ok mug

/-- The product that the flattening step builds from `mugProduct` under the
handle `mug`. -/
def mugSimplified : Obj :=
  [("handle", JSON.str "mug"), ("id", JSON.str "gid://p1"), ("title", JSON.str "Mug"),
    ("description", JSON.str " A\nmug "),
    ("images", JSON.arr [JSON.obj [("altText", JSON.str "a mug"),
      ("url", JSON.str "https://cdn.example/mug.png")]]),
    ("variants", JSON.arr [
      JSON.obj [("handle", JSON.str "mug"), ("id", JSON.str "v1"),
        ("title", JSON.str "Default"), ("price", JSON.str "9.99")],
      JSON.obj [("handle", JSON.str "mug"), ("id", JSON.str "v2"),
        ("title", JSON.str "Large"), ("price", JSON.str "12.50"),
        ("image", JSON.obj [("altText", JSON.str "large mug"),
          ("url", JSON.str "https://cdn.example/mug.png")])]])]

/-- The product that the flattening step builds from
`featuredProduct (JSON.str "front")` under the handle `mug`. -/
def featuredSimplified : Obj :=
  [("handle", JSON.str "mug"), ("id", JSON.str "gid://p1"), ("title", JSON.str "Mug"),
    ("description", JSON.str " A\nmug "), ("images", JSON.arr []),
    ("variants", JSON.arr []),
    ("featuredImage", JSON.obj [("altText", JSON.str "front"),
      ("url", JSON.str "https://cdn.example/mug.png")])]

/-! ## The sanitizer -/

/-! ### Newline replacement -/

theorem replaceAll_newline (s : List Char) :
    replaceAll s [newline] [space] = s.map fun c => if c = newline then space else c := by
  show replaceScan [newline] [space] 0 s = _
  induction s with
  | nil => rfl
  | cons c cs ih =>
    by_cases h : c = newline
    · subst h
      simp [replaceScan, ih]
    · have h2 : ¬ newline = c := fun e => h e.symm
      simp [replaceScan, ih, h, h2]

theorem newline_not_mem_replaceAll (s : List Char) :
    newline ∉ replaceAll s [newline] [space] := by
  rw [replaceAll_newline]
  intro h
  obtain ⟨c, -, hc⟩ := List.mem_map.1 h
  by_cases e : c = newline
  · rw [if_pos e] at hc
    exact absurd hc (by decide)
  · rw [if_neg e] at hc
    exact e hc

theorem replaceAll_newline_of_not_mem (s : List Char) (h : newline ∉ s) :
    replaceAll s [newline] [space] = s := by
  rw [replaceAll_newline]
  conv_rhs => rw [← List.map_id s]
  apply List.map_congr_left
  intro c hc
  have : c ≠ newline := fun e => h (e ▸ hc)
  simp [this]

theorem infix_of_infix_replaceAll_newline (p s : List Char) (hp : space ∉ p)
    (h : p <:+: replaceAll s [newline] [space]) : p <:+: s := by
  rw [replaceAll_newline] at h
  obtain ⟨a, b, hab⟩ := h
  obtain ⟨l₁, l₂, hs, h1, -⟩ := List.map_eq_append_iff.1 hab.symm
  obtain ⟨l₃, l₄, hl, -, h4⟩ := List.map_eq_append_iff.1 h1
  have : l₄ = p := by
    rw [← h4]
    conv_lhs => rw [← List.map_id l₄]
    apply List.map_congr_left
    intro c hc
    by_cases e : c = newline
    · exfalso
      apply hp
      rw [← h4]
      exact List.mem_map.2 ⟨c, hc, by simp [e]⟩
    · simp [e]
  rw [hs, hl, this]
  exact ⟨l₃, l₂, rfl⟩

/-! ### Removal of the escaped quotes -/

theorem replaceAll_escQuote_nil : replaceAll [] escQuote [] = [] := rfl

theorem replaceAll_escQuote_match (t : List Char) :
    replaceAll (backslash :: dquote :: t) escQuote [] = replaceAll t escQuote [] := by
  simp [replaceAll, escQuote, replaceScan]

theorem replaceAll_escQuote_skip (c : Char) (t : List Char)
    (h : ¬ escQuote <+: c :: t) :
    replaceAll (c :: t) escQuote [] = c :: replaceAll t escQuote [] := by
  have h2 : escQuote.isPrefixOf (c :: t) = false := by
    rw [Bool.eq_false_iff]
    intro e
    exact h (List.isPrefixOf_iff_prefix.1 e)
  show replaceScan escQuote [] 0 (c :: t) = c :: replaceScan escQuote [] 0 t
  rw [replaceScan, if_neg (by simp [h2])]

theorem escQuote_prefix_iff (s : List Char) :
    escQuote <+: s ↔ ∃ t, s = backslash :: dquote :: t := by
  constructor
  · rintro ⟨t, rfl⟩
    exact ⟨t, rfl⟩
  · rintro ⟨t, rfl⟩
    exact ⟨t, rfl⟩


/-- An induction principle that follows the scan: an occurrence at the front
is dropped as a whole, any other character is copied. -/
theorem escQuote_scan_induction {P : List Char → Prop} (hnil : P [])
    (hmatch : ∀ t, P t → P (backslash :: dquote :: t))
    (hskip : ∀ c t, ¬ escQuote <+: c :: t → P t → P (c :: t)) : ∀ s, P s := by
  have key : ∀ n (s : List Char), s.length ≤ n → P s := by
    intro n
    induction n with
    | zero =>
      intro s hs
      cases s with
      | nil => exact hnil
      | cons c t => simp at hs
    | succ n ih =>
      intro s hs
      cases s with
      | nil => exact hnil
      | cons c t =>
        by_cases hp : escQuote <+: c :: t
        · obtain ⟨u, hu⟩ := (escQuote_prefix_iff _).1 hp
          rw [hu]
          have hl : u.length ≤ n := by
            have := congrArg List.length hu
            simp at this hs
            omega
          exact hmatch u (ih u hl)
        · have hl : t.length ≤ n := by
            simp at hs
            omega
          exact hskip c t hp (ih t hl)
  intro s
  exact key s.length s le_rfl

theorem replaceAll_escQuote_sublist (s : List Char) :
    (replaceAll s escQuote []).Sublist s := by
  induction s using escQuote_scan_induction with
  | hnil => exact List.Sublist.refl _
  | hmatch t ih =>
    rw [replaceAll_escQuote_match]
    exact (ih.cons _).cons _
  | hskip c t hp ih =>
    rw [replaceAll_escQuote_skip c t hp]
    exact ih.cons₂ _

theorem replaceAll_escQuote_of_absent (s : List Char) (h : ¬ escQuote <:+: s) :
    replaceAll s escQuote [] = s := by
  induction s using escQuote_scan_induction with
  | hnil => rfl
  | hmatch t _ => exact absurd ((escQuote_prefix_iff _).2 ⟨t, rfl⟩).isInfix h
  | hskip c t hp ih =>
    rw [replaceAll_escQuote_skip c t hp, ih]
    intro hi
    exact h (List.infix_cons_iff.2 (Or.inr hi))

theorem replaceAll_escQuote_length_lt (s : List Char) (h : escQuote <:+: s) :
    (replaceAll s escQuote []).length < s.length := by
  induction s using escQuote_scan_induction with
  | hnil =>
    have := h.length_le
    simp [escQuote] at this
  | hmatch t _ =>
    rw [replaceAll_escQuote_match]
    have := (replaceAll_escQuote_sublist t).length_le
    simp
    omega
  | hskip c t hp ih =>
    rw [replaceAll_escQuote_skip c t hp]
    rcases List.infix_cons_iff.1 h with h1 | h1
    · exact absurd h1 hp
    · have := ih h1
      simp
      omega

/-- Where the output of the scan starts with a double quote, the input starts
with a double quote or with an occurrence that the scan removed. -/
theorem replaceAll_escQuote_head (t r : List Char)
    (h : replaceAll t escQuote [] = dquote :: r) :
    (∃ u, t = dquote :: u) ∨ escQuote <+: t := by
  match t with
  | [] => exact absurd h (by simp [replaceAll_escQuote_nil])
  | c :: u =>
    by_cases hp : escQuote <+: c :: u
    · exact Or.inr hp
    · rw [replaceAll_escQuote_skip c u hp] at h
      injection h with h1 _
      exact Or.inl ⟨u, by rw [h1]⟩

theorem replaceAll_escQuote_clean (s : List Char)
    (h : ¬ (backslash :: escQuote) <:+: s) :
    ¬ escQuote <:+: replaceAll s escQuote [] := by
  induction s using escQuote_scan_induction with
  | hnil =>
    intro hi
    have := hi.length_le
    simp [escQuote, replaceAll, replaceScan] at this
  | hmatch t ih =>
    rw [replaceAll_escQuote_match]
    apply ih
    intro hi
    exact h (List.infix_cons_iff.2 (Or.inr (List.infix_cons_iff.2 (Or.inr hi))))
  | hskip c t hp ih =>
    rw [replaceAll_escQuote_skip c t hp]
    have ht : ¬ (backslash :: escQuote) <:+: t := fun hi =>
      h (List.infix_cons_iff.2 (Or.inr hi))
    intro hi
    rcases List.infix_cons_iff.1 hi with h1 | h1
    · obtain ⟨r, hr⟩ := (escQuote_prefix_iff _).1 h1
      injection hr with hc hr
      rcases replaceAll_escQuote_head t r hr with ⟨u, hu⟩ | hq
      · exact hp ((escQuote_prefix_iff _).2 ⟨u, by rw [hc, hu]⟩)
      · apply h
        rw [hc]
        exact (List.cons_prefix_cons.2 ⟨rfl, hq⟩).isInfix
    · exact ih ht h1

/-! ### Trimming -/

theorem trimSpace_eq (s : List Char) :
    trimSpace s = (s.dropWhile isSpace).rdropWhile isSpace := rfl

theorem trimSpace_within (s : List Char) : trimSpace s <:+: s := by
  rw [trimSpace_eq]
  exact (List.rdropWhile_prefix _ _).isInfix.trans (List.dropWhile_suffix _).isInfix

theorem trimSpace_head (s : List Char) (c : Char) (h : (trimSpace s).head? = some c) :
    isSpace c = false := by
  rw [trimSpace_eq] at h
  cases hd : s.dropWhile isSpace with
  | nil => simp [hd] at h
  | cons a l =>
    have ha : isSpace a = false := by
      have := List.head?_dropWhile_not isSpace s
      simpa [hd] using this
    have hr : List.rdropWhile isSpace (a :: l) ≠ [] := by
      intro e
      rw [List.rdropWhile_eq_nil_iff] at e
      have := e a (List.mem_cons_self _ _)
      simp [ha] at this
    obtain ⟨m, hm⟩ := List.rdropWhile_prefix isSpace (a :: l)
    rw [hd] at h
    cases hx : List.rdropWhile isSpace (a :: l) with
    | nil => exact absurd hx hr
    | cons b k =>
      rw [hx] at hm h
      simp at hm h
      rw [← h, hm.1]
      exact ha

theorem trimSpace_getLast (s : List Char) (c : Char)
    (h : (trimSpace s).getLast? = some c) : isSpace c = false := by
  rw [trimSpace_eq] at h
  have hne : (s.dropWhile isSpace).rdropWhile isSpace ≠ [] := by
    intro e
    simp [e] at h
  have := List.rdropWhile_last_not isSpace _ hne
  rw [List.getLast?_eq_getLast _ hne] at h
  injection h with h
  rw [← h]
  simpa using this

theorem trimSpace_of_trimmed (t : List Char)
    (hh : ∀ c, t.head? = some c → isSpace c = false)
    (hl : ∀ c, t.getLast? = some c → isSpace c = false) : trimSpace t = t := by
  rw [trimSpace_eq]
  have h1 : t.dropWhile isSpace = t := by
    cases t with
    | nil => rfl
    | cons a l =>
      have := hh a rfl
      simp [List.dropWhile_cons, this]
  rw [h1, List.rdropWhile_eq_self_iff]
  intro hne
  have := hl _ (List.getLast?_eq_getLast _ hne)
  simp [this]


/-! ### `sanitizeString` -/

theorem sanitizeChars_eq (s : List Char) :
    sanitizeChars s = trimSpace (replaceAll (replaceAll s [newline] [space]) escQuote []) := rfl

theorem newline_not_mem_sanitizeChars (s : List Char) : newline ∉ sanitizeChars s := by
  intro h
  rw [sanitizeChars_eq] at h
  exact newline_not_mem_replaceAll s
    ((replaceAll_escQuote_sublist _).subset ((trimSpace_within _).subset h))

theorem sanitizeChars_fixed (t : List Char) (hn : newline ∉ t) (hq : ¬ escQuote <:+: t)
    (hh : ∀ c, t.head? = some c → isSpace c = false)
    (hl : ∀ c, t.getLast? = some c → isSpace c = false) : sanitizeChars t = t := by
  rw [sanitizeChars_eq, replaceAll_newline_of_not_mem t hn,
    replaceAll_escQuote_of_absent t hq, trimSpace_of_trimmed t hh hl]

theorem sanitizeChars_length_lt (t : List Char) (hn : newline ∉ t) (hq : escQuote <:+: t) :
    (sanitizeChars t).length < t.length := by
  rw [sanitizeChars_eq, replaceAll_newline_of_not_mem t hn]
  exact lt_of_le_of_lt (trimSpace_within _).length_le (replaceAll_escQuote_length_lt t hq)

/-- C9: for every string `s`, `sanitizeString s` starts with no whitespace
character and ends with none, because the trimming is the last of the three
steps: it is applied to the result of the newline replacement followed by the
removal of the escaped quotes, so the spaces that replace a leading or trailing
newline are trimmed as well. -/
theorem sanitizeString_trimmed (s : String) :
    (sanitizeString s).data =
      trimSpace (replaceAll (replaceAll s.data [newline] [space]) escQuote []) ∧
    (∀ c, (sanitizeString s).data.head? = some c → isSpace c = false) ∧
    (∀ c, (sanitizeString s).data.getLast? = some c → isSpace c = false) :=
  ⟨rfl, fun c h => trimSpace_head _ c h, fun c h => trimSpace_getLast _ c h⟩

/-- C7, counterexample: on the four characters backslash, backslash, quote,
quote the single pass removes the occurrence in the middle, and the characters
left over form a backslash followed by a quote; the output of `sanitizeString`
is that sequence. -/
theorem sanitizeString_keeps_escQuote :
    sanitizeString (String.mk [backslash, backslash, dquote, dquote]) = String.mk escQuote ∧
    escQuote <:+: (sanitizeString (String.mk [backslash, backslash, dquote, dquote])).data := by
  have h : sanitizeString (String.mk [backslash, backslash, dquote, dquote]) =
      String.mk escQuote := by
    decide
  refine ⟨h, ?_⟩
  rw [h]

/-- C7, amended: for every string `s` in which no backslash is immediately
followed by a backslash and a double quote, `sanitizeString s` does not contain
a backslash followed by a double quote. -/
theorem sanitizeString_no_escQuote (s : String)
    (h : ¬ (backslash :: escQuote) <:+: s.data) :
    ¬ escQuote <:+: (sanitizeString s).data := by
  intro hi
  have h1 : ¬ (backslash :: escQuote) <:+: replaceAll s.data [newline] [space] := by
    intro h2
    exact h (infix_of_infix_replaceAll_newline _ _ (by decide) h2)
  exact replaceAll_escQuote_clean _ h1 (hi.trans (trimSpace_within _))

/-- C7, amended, at the string made of a space, an escaped quote, a double
quote and a newline. -/
theorem sanitizeString_no_escQuote_witness :
    ¬ (backslash :: escQuote) <:+: [space, backslash, dquote, dquote, newline] ∧
    ¬ escQuote <:+:
      (sanitizeString (String.mk [space, backslash, dquote, dquote, newline])).data :=
  ⟨by decide,
    sanitizeString_no_escQuote (String.mk [space, backslash, dquote, dquote, newline])
      (by decide)⟩

/-- C8, counterexample: sanitizing a space, two backslashes, two quotes and a
newline leaves a backslash followed by a quote, and sanitizing that leaves the
empty string. -/
theorem sanitizeString_not_idempotent :
    sanitizeString (sanitizeString
        (String.mk [space, backslash, backslash, dquote, dquote, newline])) ≠
      sanitizeString (String.mk [space, backslash, backslash, dquote, dquote, newline]) := by
  decide

/-- C8, amended: sanitizing a second time changes nothing exactly when the
sanitized string contains no backslash followed by a double quote:
`sanitizeString (sanitizeString s) = sanitizeString s` if and only if
`sanitizeString s` is free of that sequence. -/
theorem sanitizeString_idempotent_iff (s : String) :
    sanitizeString (sanitizeString s) = sanitizeString s ↔
      ¬ escQuote <:+: (sanitizeString s).data := by
  have hn := newline_not_mem_sanitizeChars s.data
  constructor
  · intro h hi
    have hlt := sanitizeChars_length_lt _ hn hi
    have := congrArg (fun x => x.data.length) h
    simp only [sanitizeString] at this
    omega
  · intro hq
    have := sanitizeChars_fixed (sanitizeChars s.data) hn hq
      (fun c h => trimSpace_head _ c h) (fun c h => trimSpace_getLast _ c h)
    show String.mk (sanitizeChars (sanitizeChars s.data)) = String.mk (sanitizeChars s.data)
    rw [this]

/-! ## Maps, assertions and the loops of the flattening step -/

theorem lookup_cons_ite (k a : String) (b : JSON) (m : Obj) :
    List.lookup k ((a, b) :: m) = if k = a then some b else List.lookup k m := by
  by_cases h : k = a
  · subst h
    simp [List.lookup]
  · have hb : (k == a) = false := by simpa using h
    rw [if_neg h, List.lookup, hb]

theorem lookup_setKey (m : Obj) (k k' : String) (v : JSON) :
    List.lookup k' (setKey m k v) = if k' = k then some v else List.lookup k' m := by
  induction m with
  | nil =>
    rw [setKey, lookup_cons_ite]
  | cons e m ih =>
    obtain ⟨a, b⟩ := e
    by_cases h1 : a = k
    · rw [setKey, if_pos h1, lookup_cons_ite, lookup_cons_ite, h1]
      by_cases h : k' = k
      · rw [if_pos h, if_pos h]
      · rw [if_neg h, if_neg h, if_neg h]
    · rw [setKey, if_neg h1, lookup_cons_ite, lookup_cons_ite, ih]
      by_cases h : k' = k
      · have h3 : ¬ k' = a := fun e => h1 (e.symm.trans h)
        simp only [if_neg h3, if_pos h]
      · simp only [if_neg h]

theorem getKey_eq_obj {m : Obj} {k : String} {o : Obj} (h : getKey m k = JSON.obj o) :
    List.lookup k m = some (JSON.obj o) := by
  unfold getKey at h
  cases hl : List.lookup k m with
  | none => simp [hl] at h
  | some v => simp [hl] at h; rw [h]

theorem asArr_eq_some {v : JSON} {xs : List JSON} (h : v.asArr = some xs) : v = JSON.arr xs := by
  cases v <;> simp [JSON.asArr] at h
  rw [h]

theorem asObj_eq_some {v : JSON} {m : Obj} (h : v.asObj = some m) : v = JSON.obj m := by
  cases v <;> simp [JSON.asObj] at h
  rw [h]

theorem asStr_eq_some {v : JSON} {s : String} (h : v.asStr = some s) : v = JSON.str s := by
  cases v <;> simp [JSON.asStr] at h
  rw [h]

theorem getKey_setKey (m : Obj) (k k' : String) (v : JSON) :
    getKey (setKey m k v) k' = if k' = k then v else getKey m k' := by
  unfold getKey
  rw [lookup_setKey]
  split <;> rfl

theorem appendTo_eq_some {m m' : Obj} {k : String} {x : JSON} (h : appendTo m k x = some m') :
    ∃ xs, getKey m k = JSON.arr xs ∧ m' = setKey m k (JSON.arr (xs ++ [x])) := by
  unfold appendTo at h
  simp only [Option.bind_eq_bind, Option.pure_def, Option.bind_eq_some] at h
  obtain ⟨xs, h1, h2⟩ := h
  exact ⟨xs, asArr_eq_some h1, (Option.some.inj h2).symm⟩

theorem appendTo_lookup_ne {m m' : Obj} {k k' : String} {x : JSON}
    (h : appendTo m k x = some m') (hk : k' ≠ k) : List.lookup k' m' = List.lookup k' m := by
  obtain ⟨xs, -, rfl⟩ := appendTo_eq_some h
  rw [lookup_setKey, if_neg hk]

theorem imagesLoop_lookup_ne (k : String) (hk : k ≠ "images") :
    ∀ (edges : List JSON) (p p' : Obj), imagesLoop edges p = some p' →
      List.lookup k p' = List.lookup k p := by
  intro edges
  induction edges with
  | nil =>
    intro p p' h
    simp only [imagesLoop, Option.some.injEq] at h
    rw [h]
  | cons e es ih =>
    intro p p' h
    simp only [imagesLoop, Option.bind_eq_bind, Option.bind_eq_some] at h
    obtain ⟨_, _, _, _, _, _, p1, h1, h2⟩ := h
    rw [ih p1 p' h2, appendTo_lookup_ne h1 hk]


theorem variantsLoop_lookup_ne (handle k : String) (hk : k ≠ "variants") :
    ∀ (edges : List JSON) (p p' : Obj), variantsLoop handle edges p = some p' →
      List.lookup k p' = List.lookup k p := by
  intro edges
  induction edges with
  | nil =>
    intro p p' h
    simp only [variantsLoop, Option.some.injEq] at h
    rw [h]
  | cons e es ih =>
    intro p p' h
    simp only [variantsLoop, Option.bind_eq_bind, Option.bind_eq_some] at h
    obtain ⟨_, _, _, _, _, _, p1, h1, h2⟩ := h
    rw [ih p1 p' h2, appendTo_lookup_ne h1 hk]

theorem imageMap_eq_some {m : Obj} {im : JSON} (h : imageMap m = some im) :
    ∃ altText url, getKey m "altText" = JSON.str altText ∧ getKey m "url" = JSON.str url ∧
      im = JSON.obj [("altText", JSON.str altText), ("url", JSON.str url)] := by
  simp only [imageMap, Option.bind_eq_bind, Option.pure_def, Option.bind_eq_some] at h
  obtain ⟨a, ha, u, hu, h⟩ := h
  exact ⟨a, u, asStr_eq_some ha, asStr_eq_some hu, (Option.some.inj h).symm⟩

theorem variantMap_spec {handle : String} {node variant : Obj}
    (h : variantMap handle node = some variant) :
    ∃ id title price, getKey node "id" = JSON.str id ∧ getKey node "title" = JSON.str title ∧
      getKey node "price" = JSON.str price ∧
      getKey variant "handle" = JSON.str handle ∧ getKey variant "id" = JSON.str id ∧
      getKey variant "title" = JSON.str title ∧ getKey variant "price" = JSON.str price ∧
      hasKey variant "image" = (getKey node "image").isObj ∧
      ∀ image, getKey node "image" = JSON.obj image →
        imageMap image = some (getKey variant "image") := by
  simp only [variantMap, Option.bind_eq_bind, Option.pure_def, Option.bind_eq_some] at h
  obtain ⟨id, hid, title, htitle, price, hprice, h⟩ := h
  refine ⟨id, title, price, asStr_eq_some hid, asStr_eq_some htitle, asStr_eq_some hprice, ?_⟩
  cases hi : getKey node "image" with
  | obj image =>
    rw [hi] at h
    simp only [Option.bind_eq_some] at h
    obtain ⟨im, him, h⟩ := h
    have hv := (Option.some.inj h).symm
    subst hv
    refine ⟨rfl, rfl, rfl, rfl, rfl, ?_⟩
    intro image' e
    injection e with e
    subst e
    rw [him]
    rfl
  | null | bool _ | num _ | str _ | arr _ =>
    rw [hi] at h
    have hv := (Option.some.inj h).symm
    subst hv
    exact ⟨rfl, rfl, rfl, rfl, rfl, fun _ e => by cases e⟩

theorem variantsLoop_spec (handle : String) :
    ∀ (edges : List JSON) (p p' : Obj) (vs₀ : List JSON),
      variantsLoop handle edges p = some p' → getKey p "variants" = JSON.arr vs₀ →
      ∃ vs, getKey p' "variants" = JSON.arr (vs₀ ++ vs) ∧
        List.Forall₂ (VariantOf handle) edges vs := by
  intro edges
  induction edges with
  | nil =>
    intro p p' vs₀ h h0
    simp only [variantsLoop, Option.some.injEq] at h
    subst h
    exact ⟨[], by rw [h0, List.append_nil], List.Forall₂.nil⟩
  | cons edge es ih =>
    intro p p' vs₀ h h0
    simp only [variantsLoop, Option.bind_eq_bind, Option.bind_eq_some] at h
    obtain ⟨e, he, node, hnode, variant, hvar, p1, h1, h2⟩ := h
    obtain ⟨xs, hxs, hp1⟩ := appendTo_eq_some h1
    rw [h0] at hxs
    injection hxs with hxs
    subst hxs
    have h01 : getKey p1 "variants" = JSON.arr (vs₀ ++ [JSON.obj variant]) := by
      rw [hp1, getKey_setKey, if_pos rfl]
    obtain ⟨vs, hvs, hall⟩ := ih p1 p' _ h2 h01
    refine ⟨JSON.obj variant :: vs, ?_, List.Forall₂.cons ?_ hall⟩
    · rw [hvs, List.append_assoc]
      rfl
    · obtain ⟨id, title, price, r⟩ := variantMap_spec hvar
      exact ⟨e, node, variant, id, title, price, asObj_eq_some he, asObj_eq_some hnode, rfl, r⟩

/-! ## The flattening step -/

theorem productMap_eq_some {handle : String} {raw p : Obj} (h : productMap handle raw = some p) :
    ∃ id title description, getKey raw "id" = JSON.str id ∧
      getKey raw "title" = JSON.str title ∧ getKey raw "description" = JSON.str description ∧
      p = [("handle", JSON.str handle), ("id", JSON.str id), ("title", JSON.str title),
        ("description", JSON.str description), ("images", JSON.arr []),
        ("variants", JSON.arr [])] := by
  simp only [productMap, Option.bind_eq_bind, Option.pure_def, Option.bind_eq_some] at h
  obtain ⟨id, hid, title, htitle, description, hdesc, h⟩ := h
  exact ⟨id, title, description, asStr_eq_some hid, asStr_eq_some htitle,
    asStr_eq_some hdesc, (Option.some.inj h).symm⟩

theorem addFeaturedImage_lookup_ne {raw p p' : Obj} (k : String) (hk : k ≠ "featuredImage")
    (h : addFeaturedImage raw p = some p') : List.lookup k p' = List.lookup k p := by
  unfold addFeaturedImage at h
  split at h
  · simp only [Option.bind_eq_bind, Option.pure_def, Option.bind_eq_some] at h
    obtain ⟨im, -, h⟩ := h
    rw [← Option.some.inj h, lookup_setKey, if_neg hk]
  · rw [← Option.some.inj h]

theorem addFeaturedImage_spec {raw p p' : Obj} (hp : List.lookup "featuredImage" p = none)
    (h : addFeaturedImage raw p = some p') :
    hasKey p' "featuredImage" = (getKey raw "featuredImage").isObj ∧
    ∀ featuredImage, getKey raw "featuredImage" = JSON.obj featuredImage →
      imageMap featuredImage = some (getKey p' "featuredImage") := by
  unfold addFeaturedImage at h
  split at h
  · rename_i fi hfi
    simp only [Option.bind_eq_bind, Option.pure_def, Option.bind_eq_some] at h
    obtain ⟨im, him, h⟩ := h
    have h' := (Option.some.inj h).symm
    subst h'
    rw [hfi]
    refine ⟨by simp [hasKey, lookup_setKey, JSON.isObj], ?_⟩
    intro fi' e
    injection e with e
    subst e
    rw [him, getKey_setKey, if_pos rfl]
  · rename_i hno
    have h' := (Option.some.inj h).symm
    subst h'
    constructor
    · cases hv : getKey raw "featuredImage" with
      | obj fi => exact absurd hv (hno fi)
      | _ => simp [hasKey, hp, JSON.isObj]
    · intro fi e
      exact absurd e (hno fi)

theorem addImages_lookup_ne {raw p p' : Obj} (k : String) (hk : k ≠ "images")
    (h : addImages raw p = some p') : List.lookup k p' = List.lookup k p := by
  unfold addImages at h
  split at h
  · simp only [Option.bind_eq_bind, Option.bind_eq_some] at h
    obtain ⟨edges, -, h⟩ := h
    exact imagesLoop_lookup_ne k hk edges p p' h
  · rw [← Option.some.inj h]

theorem addVariants_lookup_ne {handle : String} {raw p p' : Obj} (k : String)
    (hk : k ≠ "variants") (h : addVariants handle raw p = some p') :
    List.lookup k p' = List.lookup k p := by
  simp only [addVariants, Option.bind_eq_bind, Option.bind_eq_some] at h
  obtain ⟨_, _, edges, _, h⟩ := h
  exact variantsLoop_lookup_ne handle k hk edges p p' h

theorem getKey_congr {m m' : Obj} {k : String} (h : List.lookup k m' = List.lookup k m) :
    getKey m' k = getKey m k := by
  unfold getKey
  rw [h]

theorem hasKey_congr {m m' : Obj} {k : String} (h : List.lookup k m' = List.lookup k m) :
    hasKey m' k = hasKey m k := by
  unfold hasKey
  rw [h]

/-- What a successful run of the flattening step went through. -/
theorem simplifyProduct_eq_some {handle : String} {productDetails product : Obj}
    (h : simplifyProduct handle productDetails = some product) :
    ∃ raw p₀ p₁ p₂, getKey productDetails "productByHandle" = JSON.obj raw ∧
      productMap handle raw = some p₀ ∧ addFeaturedImage raw p₀ = some p₁ ∧
      addImages raw p₁ = some p₂ ∧ addVariants handle raw p₂ = some product := by
  simp only [simplifyProduct, Option.bind_eq_bind, Option.bind_eq_some] at h
  obtain ⟨raw, hraw, p₀, h0, p₁, h1, p₂, h2, h3⟩ := h
  exact ⟨raw, p₀, p₁, p₂, asObj_eq_some hraw, h0, h1, h2, h3⟩

theorem simplifyProduct_lookup {handle : String} {productDetails product : Obj}
    (h : simplifyProduct handle productDetails = some product) (k : String)
    (h1 : k ≠ "featuredImage") (h2 : k ≠ "images") (h3 : k ≠ "variants") :
    ∃ raw p₀, getKey productDetails "productByHandle" = JSON.obj raw ∧
      productMap handle raw = some p₀ ∧ List.lookup k product = List.lookup k p₀ := by
  obtain ⟨raw, p₀, p₁, p₂, hraw, e0, e1, e2, e3⟩ := simplifyProduct_eq_some h
  exact ⟨raw, p₀, hraw, e0, by
    rw [addVariants_lookup_ne k h3 e3, addImages_lookup_ne k h2 e2,
      addFeaturedImage_lookup_ne k h1 e1]⟩

/-- C5: when the flattening step builds a product from the raw product
`raw`, the product has a `featuredImage` key if and only if the value of
`featuredImage` in `raw` is an object (not null, not missing); the entry it
then has is the flattened alt text and url of that object, and without a
featured image there is no key and no placeholder. -/
theorem simplifyProduct_featuredImage (handle : String) (productDetails raw product : Obj)
    (hraw : getKey productDetails "productByHandle" = JSON.obj raw)
    (h : simplifyProduct handle productDetails = some product) :
    hasKey product "featuredImage" = (getKey raw "featuredImage").isObj ∧
    ∀ featuredImage, getKey raw "featuredImage" = JSON.obj featuredImage →
      imageMap featuredImage = some (getKey product "featuredImage") := by
  obtain ⟨raw', p₀, p₁, p₂, hraw', e0, e1, e2, e3⟩ := simplifyProduct_eq_some h
  rw [hraw] at hraw'
  injection hraw' with hr
  subst hr
  obtain ⟨id, title, description, -, -, -, hp0⟩ := productMap_eq_some e0
  have hl : List.lookup "featuredImage" product = List.lookup "featuredImage" p₁ := by
    rw [addVariants_lookup_ne _ (by decide) e3, addImages_lookup_ne _ (by decide) e2]
  have hnone : List.lookup "featuredImage" p₀ = none := by
    rw [hp0]
    rfl
  rw [hasKey_congr hl, getKey_congr hl]
  exact addFeaturedImage_spec hnone e1

/-- C6: when the flattening step builds a product under the handle `handle`
from a raw product whose variant edges are `edges`, the `variants` list of the
product has one entry per edge, in the same order; the entry of an edge carries
the id, title and price of its node and `handle` as its handle, whatever the
node holds under `handle`, and an `image` exactly when the node has an image. -/
theorem simplifyProduct_variants (handle : String) (productDetails raw variants product : Obj)
    (edges : List JSON)
    (hraw : getKey productDetails "productByHandle" = JSON.obj raw)
    (hvariants : getKey raw "variants" = JSON.obj variants)
    (hedges : getKey variants "edges" = JSON.arr edges)
    (h : simplifyProduct handle productDetails = some product) :
    ∃ vs, getKey product "variants" = JSON.arr vs ∧
      List.Forall₂ (VariantOf handle) edges vs := by
  obtain ⟨raw', p₀, p₁, p₂, hraw', e0, e1, e2, e3⟩ := simplifyProduct_eq_some h
  rw [hraw] at hraw'
  injection hraw' with hr
  subst hr
  obtain ⟨id, title, description, -, -, -, hp0⟩ := productMap_eq_some e0
  have h2 : getKey p₂ "variants" = JSON.arr [] := by
    rw [getKey_congr (addImages_lookup_ne _ (by decide) e2),
      getKey_congr (addFeaturedImage_lookup_ne _ (by decide) e1), hp0]
    rfl
  simp only [addVariants, Option.bind_eq_bind, Option.bind_eq_some] at e3
  obtain ⟨vo, hvo, es, hes, e3⟩ := e3
  have hvo := asObj_eq_some hvo
  rw [hvariants] at hvo
  injection hvo with hvo
  subst hvo
  have hes := asArr_eq_some hes
  rw [hedges] at hes
  injection hes with hes
  subst hes
  obtain ⟨vs, hvs, hall⟩ := variantsLoop_spec handle edges p₂ product [] e3 h2
  exact ⟨vs, by rw [hvs]; rfl, hall⟩

/-! ## Products on which the flattening step succeeds -/

theorem isStr_iff {v : JSON} : v.isStr = true ↔ ∃ s, v = JSON.str s := by
  cases v <;> simp [JSON.isStr]

theorem imageMap_of_shaped {m : Obj} (h : imageShaped JSON.isStr (JSON.obj m) = true) :
    ∃ im, imageMap m = some im := by
  simp only [imageShaped, Bool.and_eq_true] at h
  obtain ⟨u, hu⟩ := isStr_iff.1 h.1
  obtain ⟨a, ha⟩ := isStr_iff.1 h.2
  exact Option.isSome_iff_exists.1 (by simp [imageMap, hu, ha, JSON.asStr])

theorem appendTo_of_arr {m : Obj} {k : String} {xs : List JSON} (x : JSON)
    (h : getKey m k = JSON.arr xs) :
    appendTo m k x = some (setKey m k (JSON.arr (xs ++ [x]))) := by
  simp [appendTo, h, JSON.asArr]

theorem imagesLoop_of_shaped :
    ∀ (edges : List JSON) (p : Obj) (xs : List JSON),
      edges.all (imageEdgeShaped JSON.isStr) = true → getKey p "images" = JSON.arr xs →
      ∃ p', imagesLoop edges p = some p' := by
  intro edges
  induction edges with
  | nil => exact fun p _ _ _ => ⟨p, rfl⟩
  | cons edge es ih =>
    intro p xs hall hp
    rw [List.all_cons, Bool.and_eq_true] at hall
    obtain ⟨he, hes⟩ := hall
    cases edge with
    | obj e =>
      simp only [imageEdgeShaped] at he
      cases hn : getKey e "node" with
      | obj m =>
        rw [hn] at he
        obtain ⟨im, him⟩ := imageMap_of_shaped he
        have h1 := appendTo_of_arr im hp
        obtain ⟨p', hp'⟩ := ih (setKey p "images" (JSON.arr (xs ++ [im]))) (xs ++ [im]) hes
          (by rw [getKey_setKey, if_pos rfl])
        exact ⟨p', by simp [imagesLoop, JSON.asObj, hn, him, h1, hp']⟩
      | _ => simp [hn, imageShaped] at he
    | _ => simp [imageEdgeShaped] at he

theorem variantMap_of_shaped (handle : String) {node : Obj}
    (hid : (getKey node "id").isStr = true) (htitle : (getKey node "title").isStr = true)
    (hprice : (getKey node "price").isStr = true)
    (him : optionalImageShaped JSON.isStr (getKey node "image") = true) :
    ∃ variant, variantMap handle node = some variant := by
  obtain ⟨id, hid⟩ := isStr_iff.1 hid
  obtain ⟨title, htitle⟩ := isStr_iff.1 htitle
  obtain ⟨price, hprice⟩ := isStr_iff.1 hprice
  cases hi : getKey node "image" with
  | obj image =>
    rw [hi] at him
    obtain ⟨im, him⟩ := imageMap_of_shaped him
    exact Option.isSome_iff_exists.1
      (by simp [variantMap, hid, htitle, hprice, hi, him, JSON.asStr])
  | _ =>
    exact Option.isSome_iff_exists.1
      (by simp [variantMap, hid, htitle, hprice, hi, JSON.asStr])

theorem variantsLoop_of_shaped (handle : String) :
    ∀ (edges : List JSON) (p : Obj) (xs : List JSON),
      edges.all (variantEdgeShaped JSON.isStr) = true → getKey p "variants" = JSON.arr xs →
      ∃ p', variantsLoop handle edges p = some p' := by
  intro edges
  induction edges with
  | nil => exact fun p _ _ _ => ⟨p, rfl⟩
  | cons edge es ih =>
    intro p xs hall hp
    rw [List.all_cons, Bool.and_eq_true] at hall
    obtain ⟨he, hes⟩ := hall
    cases edge with
    | obj e =>
      simp only [variantEdgeShaped] at he
      cases hn : getKey e "node" with
      | obj node =>
        rw [hn] at he
        simp only [Bool.and_eq_true] at he
        obtain ⟨⟨⟨hid, htitle⟩, hprice⟩, him⟩ := he
        obtain ⟨variant, hv⟩ := variantMap_of_shaped handle hid htitle hprice him
        have h1 := appendTo_of_arr (JSON.obj variant) hp
        obtain ⟨p', hp'⟩ := ih (setKey p "variants" (JSON.arr (xs ++ [JSON.obj variant])))
          (xs ++ [JSON.obj variant]) hes (by rw [getKey_setKey, if_pos rfl])
        exact ⟨p', by simp [variantsLoop, JSON.asObj, hn, hv, h1, hp']⟩
      | _ => simp [hn] at he
    | _ => simp [variantEdgeShaped] at he

/-- The flattening step succeeds on every raw product of the requested shape in
which the `altText` of every image is a string. -/
theorem simplifyProduct_of_shaped (handle : String) (productDetails raw : Obj)
    (hraw : getKey productDetails "productByHandle" = JSON.obj raw)
    (h : productShaped JSON.isStr raw = true) :
    ∃ product, simplifyProduct handle productDetails = some product := by
  simp only [productShaped, Bool.and_eq_true] at h
  obtain ⟨⟨⟨⟨⟨hid, htitle⟩, hdesc⟩, hfeat⟩, himgs⟩, hvars⟩ := h
  obtain ⟨id, hid⟩ := isStr_iff.1 hid
  obtain ⟨title, htitle⟩ := isStr_iff.1 htitle
  obtain ⟨description, hdesc⟩ := isStr_iff.1 hdesc
  -- the map literal
  have e0 : productMap handle raw = some [("handle", JSON.str handle), ("id", JSON.str id),
      ("title", JSON.str title), ("description", JSON.str description),
      ("images", JSON.arr []), ("variants", JSON.arr [])] := by
    simp [productMap, hid, htitle, hdesc, JSON.asStr]
  -- the featured image
  obtain ⟨p₁, e1⟩ : ∃ p₁, addFeaturedImage raw [("handle", JSON.str handle),
      ("id", JSON.str id), ("title", JSON.str title), ("description", JSON.str description),
      ("images", JSON.arr []), ("variants", JSON.arr [])] = some p₁ := by
    cases hf : getKey raw "featuredImage" with
    | obj fi =>
      rw [hf] at hfeat
      obtain ⟨im, him⟩ := imageMap_of_shaped hfeat
      exact Option.isSome_iff_exists.1 (by simp [addFeaturedImage, hf, him])
    | _ => exact Option.isSome_iff_exists.1 (by simp [addFeaturedImage, hf])
  have hi1 : getKey p₁ "images" = JSON.arr [] := by
    rw [getKey_congr (addFeaturedImage_lookup_ne _ (by decide) e1)]
    rfl
  -- the images
  obtain ⟨p₂, e2⟩ : ∃ p₂, addImages raw p₁ = some p₂ := by
    cases hm : getKey raw "images" with
    | obj images =>
      rw [hm] at himgs
      simp only [edgesShaped] at himgs
      cases hes : getKey images "edges" with
      | arr es =>
        rw [hes] at himgs
        obtain ⟨p₂, hp₂⟩ := imagesLoop_of_shaped es p₁ [] himgs hi1
        exact ⟨p₂, by simp [addImages, hm, hes, JSON.asArr, hp₂]⟩
      | _ => simp [hes] at himgs
    | _ => simp [hm, edgesShaped] at himgs
  have hv2 : getKey p₂ "variants" = JSON.arr [] := by
    rw [getKey_congr (addImages_lookup_ne _ (by decide) e2),
      getKey_congr (addFeaturedImage_lookup_ne _ (by decide) e1)]
    rfl
  -- the variants
  obtain ⟨p₃, e3⟩ : ∃ p₃, addVariants handle raw p₂ = some p₃ := by
    cases hm : getKey raw "variants" with
    | obj variants =>
      rw [hm] at hvars
      simp only [edgesShaped] at hvars
      cases hes : getKey variants "edges" with
      | arr es =>
        rw [hes] at hvars
        obtain ⟨p₃, hp₃⟩ := variantsLoop_of_shaped handle es p₂ [] hvars hv2
        exact ⟨p₃, by simp [addVariants, hm, hes, JSON.asArr, JSON.asObj, hp₃]⟩
      | _ => simp [hes] at hvars
    | _ => simp [hm, edgesShaped] at hvars
  exact ⟨p₃, by simp [simplifyProduct, hraw, JSON.asObj, e0, e1, e2, e3]⟩

/-! ## The keys of a simplified product -/

theorem imagesLoop_spec :
    ∀ (edges : List JSON) (p p' : Obj) (xs₀ : List JSON),
      imagesLoop edges p = some p' → getKey p "images" = JSON.arr xs₀ →
      ∃ xs, getKey p' "images" = JSON.arr (xs₀ ++ xs) ∧ List.Forall₂ ImageOf edges xs := by
  intro edges
  induction edges with
  | nil =>
    intro p p' xs₀ h h0
    simp only [imagesLoop, Option.some.injEq] at h
    subst h
    exact ⟨[], by rw [h0, List.append_nil], List.Forall₂.nil⟩
  | cons edge es ih =>
    intro p p' xs₀ h h0
    simp only [imagesLoop, Option.bind_eq_bind, Option.bind_eq_some] at h
    obtain ⟨e, he, node, hnode, im, him, p1, h1, h2⟩ := h
    obtain ⟨ys, hys, hp1⟩ := appendTo_eq_some h1
    rw [h0] at hys
    injection hys with hys
    subst hys
    have h01 : getKey p1 "images" = JSON.arr (xs₀ ++ [im]) := by
      rw [hp1, getKey_setKey, if_pos rfl]
    obtain ⟨xs, hxs, hall⟩ := ih p1 p' _ h2 h01
    refine ⟨im :: xs, ?_, List.Forall₂.cons ?_ hall⟩
    · rw [hxs, List.append_assoc]
      rfl
    · exact ⟨e, node, asObj_eq_some he, asObj_eq_some hnode, him⟩

/-- A product that the flattening step builds carries the keys `handle`, `id`,
`title` and `description`, with the strings of the raw product, and lists under
`images` and `variants`; the images are those of the image edges, and none
when `images` is not an object. -/
theorem simplifyProduct_keys (handle : String) (productDetails raw product : Obj)
    (hraw : getKey productDetails "productByHandle" = JSON.obj raw)
    (h : simplifyProduct handle productDetails = some product) :
    ∃ id title description images variants,
      getKey raw "id" = JSON.str id ∧ getKey raw "title" = JSON.str title ∧
      getKey raw "description" = JSON.str description ∧
      getKey product "handle" = JSON.str handle ∧ getKey product "id" = JSON.str id ∧
      getKey product "title" = JSON.str title ∧
      getKey product "description" = JSON.str description ∧
      getKey product "images" = JSON.arr images ∧
      getKey product "variants" = JSON.arr variants ∧
      ((getKey raw "images").isObj = false → images = []) ∧
      (∀ imagesObj edges, getKey raw "images" = JSON.obj imagesObj →
        getKey imagesObj "edges" = JSON.arr edges → List.Forall₂ ImageOf edges images) := by
  obtain ⟨raw', p₀, p₁, p₂, hraw', e0, e1, e2, e3⟩ := simplifyProduct_eq_some h
  rw [hraw] at hraw'
  injection hraw' with hr
  subst hr
  obtain ⟨id, title, description, hid, htitle, hdesc, hp0⟩ := productMap_eq_some e0
  have hk : ∀ k, k ≠ "featuredImage" → k ≠ "images" → k ≠ "variants" →
      getKey product k = getKey p₀ k := fun k h1 h2 h3 => by
    apply getKey_congr
    rw [addVariants_lookup_ne k h3 e3, addImages_lookup_ne k h2 e2,
      addFeaturedImage_lookup_ne k h1 e1]
  have hi1 : getKey p₁ "images" = JSON.arr [] := by
    rw [getKey_congr (addFeaturedImage_lookup_ne _ (by decide) e1), hp0]
    rfl
  have hv2 : getKey p₂ "variants" = JSON.arr [] := by
    rw [getKey_congr (addImages_lookup_ne _ (by decide) e2),
      getKey_congr (addFeaturedImage_lookup_ne _ (by decide) e1), hp0]
    rfl
  -- the images
  have himg : ∃ images, getKey p₂ "images" = JSON.arr images ∧
      ((getKey raw "images").isObj = false → images = []) ∧
      (∀ imagesObj edges, getKey raw "images" = JSON.obj imagesObj →
        getKey imagesObj "edges" = JSON.arr edges → List.Forall₂ ImageOf edges images) := by
    unfold addImages at e2
    split at e2
    · rename_i io hio
      simp only [Option.bind_eq_bind, Option.bind_eq_some] at e2
      obtain ⟨es, hes, e2⟩ := e2
      obtain ⟨xs, hxs, hall⟩ := imagesLoop_spec es p₁ p₂ [] e2 hi1
      refine ⟨xs, by rw [hxs]; rfl, ?_, ?_⟩
      · intro hno
        rw [hio] at hno
        simp [JSON.isObj] at hno
      · intro io' es' h1 h2
        rw [hio] at h1
        injection h1 with h1
        subst h1
        have := asArr_eq_some hes
        rw [h2] at this
        injection this with this
        subst this
        exact hall
    · rename_i hno
      have := Option.some.inj e2
      subst this
      exact ⟨[], hi1, fun _ => rfl, fun io _ hio _ => absurd hio (hno io)⟩
  obtain ⟨images, himages, hnone, hsome⟩ := himg
  -- the variants
  simp only [addVariants, Option.bind_eq_bind, Option.bind_eq_some] at e3
  obtain ⟨vo, hvo, es, hes, e3⟩ := e3
  obtain ⟨vs, hvs, -⟩ := variantsLoop_spec handle es p₂ product [] e3 hv2
  refine ⟨id, title, description, images, vs, hid, htitle, hdesc, ?_, ?_, ?_, ?_, ?_, ?_,
    hnone, hsome⟩
  · rw [hk _ (by decide) (by decide) (by decide), hp0]
    rfl
  · rw [hk _ (by decide) (by decide) (by decide), hp0]
    rfl
  · rw [hk _ (by decide) (by decide) (by decide), hp0]
    rfl
  · rw [hk _ (by decide) (by decide) (by decide), hp0]
    rfl
  · rw [getKey_congr (variantsLoop_lookup_ne handle _ (by decide) es p₂ product e3), himages]
  · rw [hvs]
    rfl

/-! ### The failures, for every upstream -/

theorem imageMap_of_not_string (m : Obj) (h : (getKey m "altText").isStr = false) :
    imageMap m = none := by
  cases ha : getKey m "altText" <;> simp_all [imageMap, JSON.asStr, JSON.isStr]

theorem simplifyProduct_of_no_variants (handle : String) (productDetails raw : Obj)
    (hraw : getKey productDetails "productByHandle" = JSON.obj raw)
    (h : (getKey raw "variants").isObj = false) :
    simplifyProduct handle productDetails = none := by
  cases hs : simplifyProduct handle productDetails with
  | none => rfl
  | some product =>
    obtain ⟨raw', -, -, p₂, hraw', -, -, -, e3⟩ := simplifyProduct_eq_some hs
    rw [hraw] at hraw'
    injection hraw' with hr
    subst hr
    simp only [addVariants, Option.bind_eq_bind, Option.bind_eq_some] at e3
    obtain ⟨vo, hvo, -⟩ := e3
    rw [asObj_eq_some hvo] at h
    simp [JSON.isObj] at h

theorem products_of_error {σ : Type} (run : Client σ) (url token handle : String)
    (w w' : σ) (err : String)
    (h : run ⟨url, Query.getProductByHandle, handle, token⟩ w = (Except.error err, w')) :
    products run url token handle w = (Outcome.fatal ("failed to fetch product: " ++ err), w') := by
  unfold products
  rw [h]

theorem products_of_null {σ : Type} (run : Client σ) (url token handle : String)
    (w w' : σ) (respData : Obj)
    (h : run ⟨url, Query.getProductByHandle, handle, token⟩ w = (Except.ok respData, w'))
    (hnull : (getKey respData "productByHandle").isObj = false) :
    products run url token handle w = (Outcome.panic, w') := by
  unfold products
  rw [h]
  cases hv : getKey respData "productByHandle" <;> simp_all [JSON.isObj]

theorem collectionProducts_of_error {σ : Type} (marshalIndent : JSON → Except String String)
    (run : Client σ) (url token handle : String) (w w' : σ) (err : String)
    (h : run ⟨url, Query.getCollection, handle, token⟩ w = (Except.error err, w')) :
    collectionProducts marshalIndent run url token handle w =
      (Outcome.fatal ("failed to fetch collection: " ++ err), w') := by
  unfold collectionProducts collectionProductsDoc collection
  rw [h]

theorem collectionProducts_of_null {σ : Type} (marshalIndent : JSON → Except String String)
    (run : Client σ) (url token handle : String) (w w' : σ) (collectionResp : Obj)
    (h : run ⟨url, Query.getCollection, handle, token⟩ w = (Except.ok collectionResp, w'))
    (hnull : (getKey collectionResp "collectionByHandle").isObj = false) :
    collectionProducts marshalIndent run url token handle w = (Outcome.panic, w') := by
  have he : extractCollection collectionResp = none := by
    cases hv : getKey collectionResp "collectionByHandle" <;>
      simp_all [extractCollection, JSON.isObj, JSON.asObj]
  unfold collectionProducts collectionProductsDoc collection
  rw [h]
  simp only [he]

/-- What `products` returns is the response of the upstream with the
description sanitized; no other field of the product changes. -/
theorem products_eq_ok {σ : Type} {run : Client σ} {url token handle : String} {w w' : σ}
    {productDetails : Obj}
    (h : products run url token handle w = (Outcome.ok productDetails, w')) :
    ∃ respData data data',
      run ⟨url, Query.getProductByHandle, handle, token⟩ w = (Except.ok respData, w') ∧
      getKey respData "productByHandle" = JSON.obj data ∧
      getKey productDetails "productByHandle" = JSON.obj data' ∧
      (∀ k, k ≠ "description" → List.lookup k data' = List.lookup k data) ∧
      (∀ desc, getKey data "description" = JSON.str desc →
        getKey data' "description" = JSON.str (sanitizeString desc)) ∧
      ((getKey data "description").isStr = false → data' = data) := by
  unfold products at h
  rcases hr : run ⟨url, Query.getProductByHandle, handle, token⟩ w with ⟨r, w₁⟩
  rw [hr] at h
  cases r with
  | error e => simp at h
  | ok respData =>
    simp only at h
    cases hd : getKey respData "productByHandle" with
    | obj data =>
      rw [hd] at h
      simp only at h
      cases hdesc : getKey data "description" with
      | str desc =>
        rw [hdesc] at h
        simp only [Prod.mk.injEq, Outcome.ok.injEq] at h
        obtain ⟨h1, h2⟩ := h
        subst h1 h2
        refine ⟨respData, data, _, rfl, hd, by rw [getKey_setKey, if_pos rfl], ?_, ?_, ?_⟩
        · intro k hk
          rw [lookup_setKey, if_neg hk]
        · intro desc' e
          rw [hdesc] at e
          injection e with e
          subst e
          rw [getKey_setKey, if_pos rfl]
        · intro hno
          rw [hdesc] at hno
          simp [JSON.isStr] at hno
      | null | bool _ | num _ | arr _ | obj _ =>
        rw [hdesc] at h
        simp only [Prod.mk.injEq, Outcome.ok.injEq] at h
        obtain ⟨h1, h2⟩ := h
        subst h1 h2
        refine ⟨_, data, data, rfl, hd, hd, fun _ _ => rfl, ?_, fun _ => rfl⟩
        intro desc e
        rw [hdesc] at e
        cases e
    | null | bool _ | num _ | str _ | arr _ =>
      rw [hd] at h
      simp at h

/-! ## The loop over the products of the collection -/

/-- The function `products` never returns an error: a failed fetch ends the
process instead, so the `continue` of line 166 is never reached. -/
theorem products_ne_error {σ : Type} (run : Client σ) (url token handle : String) (w : σ)
    (err : String) : (products run url token handle w).1 ≠ Outcome.error err := by
  unfold products
  split
  · simp
  · split
    · split <;> simp
    · simp

/-- The function `collection` never returns an error either. -/
theorem collection_ne_error {σ : Type} (run : Client σ) (url token handle : String) (w : σ)
    (err : String) : (collection run url token handle w).1 ≠ Outcome.error err := by
  unfold collection
  split <;> simp

theorem simplifyProduct_handle {handle : String} {productDetails product : Obj}
    (h : simplifyProduct handle productDetails = some product) :
    productHandle (JSON.obj product) = some handle := by
  obtain ⟨raw, p₀, -, e0, hl⟩ :=
    simplifyProduct_lookup h "handle" (by decide) (by decide) (by decide)
  obtain ⟨id, title, description, -, -, -, hp0⟩ := productMap_eq_some e0
  show (getKey product "handle").asStr = some handle
  rw [getKey_congr hl, hp0]
  rfl

theorem productsLoop_handles {σ : Type} (run : Client σ) (url token : String) :
    ∀ (edges : List JSON) (cp : Obj) (w : σ) (doc : Obj) (w' : σ) (ps₀ : List JSON),
      productsLoop run url token edges cp w = (Outcome.ok doc, w') →
      getKey cp "products" = JSON.arr ps₀ →
      ∃ ps, getKey doc "products" = JSON.arr (ps₀ ++ ps) ∧
        ps.map productHandle = edges.map edgeHandle ∧
        List.Forall₂ (ProductOf run url token) edges ps := by
  intro edges
  induction edges with
  | nil =>
    intro cp w doc w' ps₀ h h0
    simp only [productsLoop, Prod.mk.injEq, Outcome.ok.injEq] at h
    rw [← h.1]
    exact ⟨[], by rw [h0, List.append_nil], rfl, List.Forall₂.nil⟩
  | cons edge es ih =>
    intro cp w doc w' ps₀ h h0
    rw [productsLoop] at h
    cases hh : edgeHandle edge with
    | none =>
      rw [hh] at h
      simp at h
    | some hd =>
      rw [hh] at h
      simp only at h
      rcases hp : products run url token hd w with ⟨o, w₁⟩
      rw [hp] at h
      cases o with
      | error e => exact absurd (congrArg Prod.fst hp) (products_ne_error run url token hd w e)
      | panic => simp at h
      | fatal msg => simp at h
      | ok pd =>
        simp only at h
        cases hs : simplifyProduct hd pd with
        | none =>
          rw [hs] at h
          simp at h
        | some product =>
          rw [hs] at h
          simp only [Option.bind_eq_bind, Option.some_bind] at h
          cases ha : appendTo cp "products" (JSON.obj product) with
          | none =>
            rw [ha] at h
            simp at h
          | some cp₁ =>
            rw [ha] at h
            simp only at h
            obtain ⟨xs, hxs, hcp⟩ := appendTo_eq_some ha
            rw [h0] at hxs
            injection hxs with hxs
            subst hxs
            have h1 : getKey cp₁ "products" = JSON.arr (ps₀ ++ [JSON.obj product]) := by
              rw [hcp, getKey_setKey, if_pos rfl]
            obtain ⟨ps, hps, hmap, hall⟩ := ih cp₁ w₁ doc w' _ h h1
            refine ⟨JSON.obj product :: ps, ?_, ?_, List.Forall₂.cons ?_ hall⟩
            · rw [hps, List.append_assoc]
              rfl
            · rw [List.map_cons, List.map_cons, hmap, hh, simplifyProduct_handle hs]
            · exact ⟨hd, w, w₁, pd, product, hh, hp, hs, rfl⟩

theorem extractCollection_products {collectionResp cp : Obj} {edges : List JSON}
    (h : extractCollection collectionResp = some (cp, edges)) :
    getKey cp "products" = JSON.arr [] := by
  simp only [extractCollection, Option.bind_eq_bind, Option.pure_def, Option.bind_eq_some] at h
  obtain ⟨_, _, _, _, _, _, _, _, _, _, h⟩ := h
  injection h with h
  injection h with h1 _
  rw [← h1]
  rfl

/-- When `collectionProductsDoc` returns a document, the collection was
fetched, the `products` list of the document has one entry per product edge of
the collection, in the same order, each built from what `products` returned
for the handle of its edge, and so the handles of the document are the handles
of the collection. -/
theorem collectionProductsDoc_handles {σ : Type} (run : Client σ)
    (url token handle : String) (w w' : σ) (doc : Obj)
    (h : collectionProductsDoc run url token handle w = (Outcome.ok doc, w')) :
    ∃ collectionResp w₁ cp edges,
      run ⟨url, Query.getCollection, handle, token⟩ w = (Except.ok collectionResp, w₁) ∧
      extractCollection collectionResp = some (cp, edges) ∧
      productHandles doc = edges.map edgeHandle ∧
      ∃ ps, getKey doc "products" = JSON.arr ps ∧
        List.Forall₂ (ProductOf run url token) edges ps := by
  unfold collectionProductsDoc collection at h
  rcases hr : run ⟨url, Query.getCollection, handle, token⟩ w with ⟨r, w₁⟩
  rw [hr] at h
  cases r with
  | error e => simp at h
  | ok collectionResp =>
    simp only at h
    cases he : extractCollection collectionResp with
    | none =>
      rw [he] at h
      simp at h
    | some ce =>
      obtain ⟨cp, edges⟩ := ce
      rw [he] at h
      simp only at h
      obtain ⟨ps, hps, hmap, hall⟩ :=
        productsLoop_handles run url token edges cp w₁ doc w' [] h
          (extractCollection_products he)
      refine ⟨collectionResp, w₁, cp, edges, rfl, he, ?_, ps, hps, hall⟩
      unfold productHandles
      rw [hps]
      exact hmap

/-! ## The aggregator at concrete upstream responses -/

/-- C5 at a product with a featured image. -/
theorem simplifyProduct_featuredImage_witness :
    getKey (featuredProduct (JSON.str "front")) "productByHandle" =
        JSON.obj (mugFields ++ [("featuredImage", imageOf (JSON.str "front")),
          ("images", JSON.obj [("edges", JSON.arr [])]),
          ("variants", JSON.obj [("edges", JSON.arr [])])]) ∧
      simplifyProduct "mug" (featuredProduct (JSON.str "front")) = some featuredSimplified ∧
      hasKey featuredSimplified "featuredImage" = true :=
  ⟨rfl, rfl, (simplifyProduct_featuredImage "mug" (featuredProduct (JSON.str "front")) _
    featuredSimplified rfl rfl).1⟩

/-- C6 at a product with two variants, the first of which carries a `handle`
of its own and no image. -/
theorem simplifyProduct_variants_witness :
    simplifyProduct "mug" mugProduct = some mugSimplified ∧
      ∃ vs, getKey mugSimplified "variants" = JSON.arr vs ∧
        List.Forall₂ (VariantOf "mug")
          [plainVariantEdge, imageVariantEdge (JSON.str "large mug")] vs :=
  ⟨rfl, simplifyProduct_variants "mug" mugProduct _ _ mugSimplified _ rfl rfl rfl rfl⟩

/-- C1, at the failing input: the collection is `[A, B, C]` and the fetch of `B`
fails.  The call does not return `[A, C]`: `products` ends the process with
`log.Fatalf`.  When all three fetches succeed the handles of the document are
`A`, `B`, `C` in that order. -/
theorem collectionProducts_fetch_failure (marshalIndent : JSON → Except String String) :
    collectionProducts marshalIndent (clientABC (Except.error "timeout"))
        "url" "token" "frontpage" () =
      (Outcome.fatal "failed to fetch product: timeout", ()) ∧
    ∃ doc, collectionProductsDoc (clientABC (Except.ok mugProduct))
        "url" "token" "frontpage" () = (Outcome.ok doc, ()) ∧
      productHandles doc = [some "A", some "B", some "C"] :=
  ⟨rfl, _, rfl, rfl⟩

/-- C3, at the failing input: the collection is `[A, B, C]` and the upstream
answers the query for `B` with a null `productByHandle`.  The product is not
skipped: the unchecked assertion of line 88 panics. -/
theorem collectionProducts_null_product (marshalIndent : JSON → Except String String) :
    collectionProducts marshalIndent (clientABC (Except.ok nullProduct))
        "url" "token" "frontpage" () = (Outcome.panic, ()) :=
  rfl

/-- C2, at the failing inputs: when the collection fetch fails `collection`
ends the process with `log.Fatalf`, and when `collectionByHandle` is null the
unchecked assertion of line 144 panics; in neither case does
`collectionProducts` return an error. -/
theorem collectionProducts_collection_failure (marshalIndent : JSON → Except String String) :
    collectionProducts marshalIndent
        (stubClient (Except.error "connection refused") fun _ => Except.ok mugProduct)
        "url" "token" "frontpage" () =
      (Outcome.fatal "failed to fetch collection: connection refused", ()) ∧
    collectionProducts marshalIndent
        (stubClient (Except.ok nullCollection) fun _ => Except.ok mugProduct)
        "url" "token" "missing" () = (Outcome.panic, ()) :=
  ⟨rfl, rfl⟩

/-- C4, at the failing input: for a product without a `variants` field the
unchecked assertion of line 200 panics, and so does the whole call, whereas a
product without an `images` field is built with an empty `images` list. -/
theorem collectionProducts_missing_variants (marshalIndent : JSON → Except String String) :
    simplifyProduct "mug" productWithoutVariants = none ∧
    collectionProducts marshalIndent (clientMug productWithoutVariants)
        "url" "token" "frontpage" () = (Outcome.panic, ()) ∧
    ∃ product, simplifyProduct "mug" productWithoutImages = some product ∧
      getKey product "images" = JSON.arr [] :=
  ⟨rfl, rfl, _, rfl, rfl⟩

/-- C10, at the failing inputs: the three products have the shape the query
requests, with a null `altText` in the featured image, in an image of the
gallery and in the image of a variant; the assertion `.(string)` of lines 182,
192 and 213 fails on each, and the call panics. -/
theorem simplifyProduct_null_altText (marshalIndent : JSON → Except String String) :
    (getKey (featuredProduct JSON.null) "productByHandle").asObj.all
      (productShaped JSON.isStrOrNull) = true ∧
    (getKey productNullAltImage "productByHandle").asObj.all
      (productShaped JSON.isStrOrNull) = true ∧
    (getKey productNullAltVariant "productByHandle").asObj.all
      (productShaped JSON.isStrOrNull) = true ∧
    simplifyProduct "mug" (featuredProduct JSON.null) = none ∧
    simplifyProduct "mug" productNullAltImage = none ∧
    simplifyProduct "mug" productNullAltVariant = none ∧
    collectionProducts marshalIndent (clientMug (featuredProduct JSON.null))
        "url" "token" "frontpage" () = (Outcome.panic, ()) :=
  ⟨rfl, rfl, rfl, rfl, rfl, rfl, rfl⟩

end ShopifyGraphql
